import Mathlib

/-!
Verification of the extended-public-key ("xyz-pub") core of the bwt
repository: SLIP-132 tagged key parsing/serialization (`src/util/xpub.rs`),
the version-byte table, BIP-32 origins, the descriptor bridge, and the
`RescanSince` deserializer (`src/util/bitcoincore_ext.rs`).

Bytes are modelled as `Nat` (with explicit `< 256` bounds where overflow
matters); the base58check codec is external to the core, and a valid
textual key is in bijection with its decoded raw payload, so textual keys
are represented by their decoded payload byte lists throughout.
-/

namespace Bwt

/-- Bitcoin network tag (`bitcoin::Network`): Mainnet is `bitcoin`. -/
inductive Network where
  | bitcoin
  | testnet
  | regtest
deriving DecidableEq

/-- Script types supported by the core (`crate::types::ScriptType`). -/
inductive ScriptType where
  | p2pkh
  | p2wpkh
  | p2shP2wpkh
deriving DecidableEq

/-- A BIP-32 child number (`bitcoin::util::bip32::ChildNumber`): a 31-bit
index, either normal or hardened. -/
inductive ChildNumber where
  | normal (index : Nat)
  | hardened (index : Nat)
deriving DecidableEq

deriving instance DecidableEq for Except

/-- The bare 31-bit index of a child number. -/
def ChildNumber.index : ChildNumber → Nat
  | .normal index => index
  | .hardened index => index

/-- The raw u32 stored in the 78-byte payload for a child number: hardened
indices have the high bit set. -/
def ChildNumber.code : ChildNumber → Nat
  | .normal index => index
  | .hardened index => index + 2 ^ 31

/-- Decode the raw u32 from the payload back into a child number. -/
def decodeChildNumber (n : Nat) : ChildNumber :=
  if n < 2 ^ 31 then .normal n else .hardened (n - 2 ^ 31)

/-- The external BIP-32 extended public key (`bitcoin::util::bip32::ExtendedPubKey`),
as consumed by the core: network tag plus the structural fields of the
78-byte payload. The secp256k1 point is kept as its 33 compressed bytes. -/
structure ExtendedPubKey where
  network : Network
  depth : Nat
  parent_fingerprint : List Nat
  child_number : ChildNumber
  chain_code : List Nat
  public_key : List Nat
deriving DecidableEq

/-- Structural well-formedness of an extended key: exactly the field shapes
the Rust types (`u8`, `[u8; 4]`, 31-bit child index, `[u8; 32]`, 33-byte
compressed point) guarantee. -/
def ExtendedPubKey.WellFormed (k : ExtendedPubKey) : Prop :=
  k.depth < 256 ∧
  k.parent_fingerprint.length = 4 ∧ (∀ b ∈ k.parent_fingerprint, b < 256) ∧
  k.child_number.index < 2 ^ 31 ∧
  k.chain_code.length = 32 ∧ (∀ b ∈ k.chain_code, b < 256) ∧
  k.public_key.length = 33 ∧ (∀ b ∈ k.public_key, b < 256) ∧
  (k.public_key.headD 0 = 2 ∨ k.public_key.headD 0 = 3)

instance (k : ExtendedPubKey) : Decidable k.WellFormed := by
  unfold ExtendedPubKey.WellFormed
  exact inferInstance

/-- An extended public key with an associated script type
(`bwt::util::xpub::XyzPubKey`). -/
structure XyzPubKey where
  script_type : ScriptType
  xpub : ExtendedPubKey
deriving DecidableEq

/-- The base58 error type used by `XyzPubKey::from_str`
(`bitcoin::util::base58::Error`); `invalidKey` stands for the remaining
error cases of the external codec and key parser. -/
inductive Base58Error where
  | invalidLength (n : Nat)
  | invalidVersion (v : List Nat)
  | invalidKey
deriving DecidableEq

/-- `bwt::util::xpub::parse_xyz_version`: resolve a 4-byte version
sequence to its (network, script type) pair; any other sequence is an
`InvalidVersion` error carrying those bytes. -/
def parse_xyz_version (version : List Nat) : Except Base58Error (Network × ScriptType) :=
  if version = [0x04, 0x88, 0xB2, 0x1E] then .ok (.bitcoin, .p2pkh)
  else if version = [0x04, 0xB2, 0x47, 0x46] then .ok (.bitcoin, .p2wpkh)
  else if version = [0x04, 0x9D, 0x7C, 0xB2] then .ok (.bitcoin, .p2shP2wpkh)
  else if version = [0x04, 0x35, 0x87, 0xCF] then .ok (.testnet, .p2pkh)
  else if version = [0x04, 0x5F, 0x1C, 0xF6] then .ok (.testnet, .p2wpkh)
  else if version = [0x04, 0x4A, 0x52, 0x62] then .ok (.testnet, .p2shP2wpkh)
  else .error (.invalidVersion version)

/-- `bwt::util::xpub::get_xpub_p2pkh_version`: the canonical (plain xpub)
version bytes for a network; Regtest shares Testnet's. -/
def get_xpub_p2pkh_version (network : Network) : List Nat :=
  match network with
  | .bitcoin => [0x04, 0x88, 0xB2, 0x1E]
  | .testnet | .regtest => [0x04, 0x35, 0x87, 0xCF]

/-- Modelled from the spec: `VersionTable.tag_prefix(network, script_type)`,
the inverse of the 6-entry version table (§6); the serialization direction
of the table is not part of the sources under `src/`, so it is taken from
the spec's table, with Regtest sharing Testnet's family. -/
def tagVersionBytes (network : Network) (script_type : ScriptType) : List Nat :=
  match network, script_type with
  | .bitcoin, .p2pkh => [0x04, 0x88, 0xB2, 0x1E]
  | .bitcoin, .p2wpkh => [0x04, 0xB2, 0x47, 0x46]
  | .bitcoin, .p2shP2wpkh => [0x04, 0x9D, 0x7C, 0xB2]
  | .testnet, .p2pkh | .regtest, .p2pkh => [0x04, 0x35, 0x87, 0xCF]
  | .testnet, .p2wpkh | .regtest, .p2wpkh => [0x04, 0x5F, 0x1C, 0xF6]
  | .testnet, .p2shP2wpkh | .regtest, .p2shP2wpkh => [0x04, 0x4A, 0x52, 0x62]

/-- The six valid version-byte sequences of the table. -/
def xyzVersions : List (List Nat) :=
  [[0x04, 0x88, 0xB2, 0x1E], [0x04, 0xB2, 0x47, 0x46], [0x04, 0x9D, 0x7C, 0xB2],
   [0x04, 0x35, 0x87, 0xCF], [0x04, 0x5F, 0x1C, 0xF6], [0x04, 0x4A, 0x52, 0x62]]

/-- `bwt::util::xpub::xpub_matches_network`: testnet and regtest share the
same bip32 version bytes. -/
def xpub_matches_network (xpub : ExtendedPubKey) (network : Network) : Bool :=
  xpub.network == network || (xpub.network == .testnet && network == .regtest)

/-- Big-endian 4-byte encoding of a 32-bit value. -/
def u32be (n : Nat) : List Nat :=
  [n / 2 ^ 24 % 256, n / 2 ^ 16 % 256, n / 2 ^ 8 % 256, n % 256]

/-- Big-endian interpretation of a byte list. -/
def beToNat (l : List Nat) : Nat :=
  l.foldl (fun a b => a * 256 + b) 0

/-- The version bytes rust-bitcoin's own BIP-32 serializer writes for a
network: the plain-xpub family, with Testnet and Regtest sharing bytes. -/
def bip32VersionBytes (network : Network) : List Nat :=
  match network with
  | .bitcoin => [0x04, 0x88, 0xB2, 0x1E]
  | .testnet | .regtest => [0x04, 0x35, 0x87, 0xCF]

/-- Modelled from the spec: the external ExtendedKeyPrimitive's
serialization (`ExtendedPubKey::to_string` before base58check): the
78-byte payload `version ++ depth ++ parent_fingerprint ++ child_number
++ chain_code ++ public_key` (§6), with the plain-prefix family chosen by
the key's network. -/
def extSerialize (k : ExtendedPubKey) : List Nat :=
  bip32VersionBytes k.network ++
    k.depth :: (k.parent_fingerprint ++ u32be k.child_number.code ++ k.chain_code ++ k.public_key)

/-- Modelled from the spec: the external ExtendedKeyPrimitive's parser
(`ExtendedPubKey::from_str` after base58check decoding): requires a
78-byte payload, recognizes only the two plain-prefix families (mapping
the shared Testnet/Regtest bytes to Testnet), and reads the structural
fields off the payload; the compressed-point shape of the public key is
checked, deeper point validity is elided. Field extraction: -/
def extParseFields (network : Network) (data : List Nat) :
    Except Base58Error ExtendedPubKey :=
  let r := data.drop 4
  let r1 := r.drop 1
  let r2 := r1.drop 4
  let r3 := r2.drop 4
  let pk := r3.drop 32
  if pk.headD 0 = 2 ∨ pk.headD 0 = 3 then
    .ok { network := network
          depth := r.headD 0
          parent_fingerprint := r1.take 4
          child_number := decodeChildNumber (beToNat (r2.take 4))
          chain_code := r3.take 32
          public_key := pk }
  else .error .invalidKey

/-- The external parser itself: length and version-prefix dispatch. -/
def extParse (data : List Nat) : Except Base58Error ExtendedPubKey :=
  if data.length = 78 then
    match data.take 4 with
    | [0x04, 0x88, 0xB2, 0x1E] => extParseFields .bitcoin data
    | [0x04, 0x35, 0x87, 0xCF] => extParseFields .testnet data
    | v => .error (.invalidVersion v)
  else .error (.invalidLength data.length)

/-- `XyzPubKey::from_str` (src/util/xpub.rs), on the decoded payload of the
input string: require 78 bytes, resolve the version prefix via
`parse_xyz_version`, splice the canonical prefix for the resolved network
over the first 4 bytes, and hand the faux-xpub payload to the external
BIP-32 parser. -/
def from_str (data : List Nat) : Except Base58Error XyzPubKey :=
  if data.length ≠ 78 then .error (.invalidLength data.length)
  else
    match parse_xyz_version (data.take 4) with
    | .error e => .error e
    | .ok (network, script_type) =>
      match extParse (get_xpub_p2pkh_version network ++ data.drop 4) with
      | .error e => .error e
      | .ok xpub => .ok { script_type := script_type, xpub := xpub }

/-- The string serialization of an `XyzPubKey`
(`impl_string_serializer!(XyzPubKey, xyzpub, xyzpub.xpub.to_string())`,
src/util/xpub.rs line 28), on the payload level: it is the payload of the
inner xpub's own plain-prefix string. -/
def XyzPubKey.to_string (xyzpub : XyzPubKey) : List Nat :=
  extSerialize xyzpub.xpub

/-- `bwt::util::xpub::Bip32Origin`: a fingerprint plus a derivation path. -/
structure Bip32Origin where
  fingerprint : List Nat
  path : List ChildNumber
deriving DecidableEq

/-- `impl From<&ExtendedPubKey> for Bip32Origin` (src/util/xpub.rs):
single-hop origin. The external fingerprint computation (hash160 of the
public key) is passed in as `fingerprint`. -/
def Bip32Origin.from_xpub (fingerprint : ExtendedPubKey → List Nat)
    (xpub : ExtendedPubKey) : Bip32Origin :=
  if xpub.depth > 0 then
    { fingerprint := xpub.parent_fingerprint, path := [xpub.child_number] }
  else
    { fingerprint := fingerprint xpub, path := [] }

/-- `Bip32Origin::child`: append one step. -/
def Bip32Origin.child (o : Bip32Origin) (cn : ChildNumber) : Bip32Origin :=
  { o with path := o.path ++ [cn] }

/-- The single-key record of a descriptor key
(`miniscript::descriptor::DescriptorXPub` as used by the core). -/
structure DescriptorXPub where
  origin : Option (List Nat × List ChildNumber)
  xkey : ExtendedPubKey
  derivation_path : List ChildNumber
  is_wildcard : Bool
deriving DecidableEq

/-- `miniscript::descriptor::DescriptorPublicKey`: an extended key record
or a single raw public key. -/
inductive DescriptorPublicKey where
  | xPub (d : DescriptorXPub)
  | singlePub (bytes : List Nat)
deriving DecidableEq

/-- The descriptor shapes relevant to the core: the three single-key
variants, and `other` standing for every remaining miniscript descriptor
(multi-key and script constructs). -/
inductive Descriptor where
  | pkh (k : DescriptorPublicKey)
  | wpkh (k : DescriptorPublicKey)
  | shWpkh (k : DescriptorPublicKey)
  | other
deriving DecidableEq

/-- `XyzPubKey::as_descriptor` (src/util/xpub.rs): build a wildcard
descriptor around the key, with a single-hop origin when depth > 0 and the
variant selected by the script type. -/
def XyzPubKey.as_descriptor (xyzpub : XyzPubKey)
    (derivation_path : List ChildNumber) : Descriptor :=
  let bip32_origin :=
    if xyzpub.xpub.depth > 0 then
      some (xyzpub.xpub.parent_fingerprint, [xyzpub.xpub.child_number])
    else none
  let desc_key : DescriptorPublicKey :=
    .xPub { origin := bip32_origin
            xkey := xyzpub.xpub
            derivation_path := derivation_path
            is_wildcard := true }
  match xyzpub.script_type with
  | .p2pkh => .pkh desc_key
  | .p2wpkh => .wpkh desc_key
  | .p2shP2wpkh => .shWpkh desc_key

/-- The script type and key record of a single-key descriptor variant. -/
def keyRecordOf : Descriptor → Option (ScriptType × DescriptorPublicKey)
  | .pkh k => some (.p2pkh, k)
  | .wpkh k => some (.p2wpkh, k)
  | .shWpkh k => some (.p2shP2wpkh, k)
  | .other => none

/-- Eligibility of one key record for `try_from_desc`: an extended-key
record with the wildcard set, whose trailing path derives successfully. -/
def tryKeyRecord (derivePub : ExtendedPubKey → List ChildNumber → Option ExtendedPubKey)
    (script_type : ScriptType) : DescriptorPublicKey → Option XyzPubKey
  | .xPub d =>
    if d.is_wildcard then
      (derivePub d.xkey d.derivation_path).map
        fun xpub => { script_type := script_type, xpub := xpub }
    else none
  | .singlePub _ => none

/-- Modelled from the spec: `DescriptorBridge.try_from_descriptor`
(`XyzPubKey::try_from_desc`, which lives in `src/util/descriptor.rs` and is
not among the provided sources). The shape and wildcard conditions follow
the spec (§4.4); the handling of a non-empty trailing path follows the
repository's own test `test_desc_to_xpub_conversion` (src/util/xpub.rs
lines 203-218), which shows the xpub being derived along the non-hardened
trailing path rather than the descriptor being rejected. The external
child derivation is passed in as `derivePub`. -/
def try_from_desc (derivePub : ExtendedPubKey → List ChildNumber → Option ExtendedPubKey) :
    Descriptor → Option XyzPubKey
  | .pkh k => tryKeyRecord derivePub .p2pkh k
  | .wpkh k => tryKeyRecord derivePub .p2wpkh k
  | .shWpkh k => tryKeyRecord derivePub .p2shP2wpkh k
  | .other => none

/-- `bwt::util::bitcoincore_ext::RescanSince`. -/
inductive RescanSince where
  | now
  | timestamp (t : Nat)
deriving DecidableEq

/-- The runtime shapes the `RescanSince` visitor can receive from
`deserialize_any` that it implements handlers for: a string or a u64. -/
inductive DeValue where
  | str (s : String)
  | num (n : Nat)
deriving DecidableEq

/-- Deserialization error of the visitor; `invalidStr` stands for the
custom error built from the offending string (message text elided). -/
inductive DeError where
  | invalidStr (s : String)
deriving DecidableEq

/-- `impl Deserialize for RescanSince` (src/util/bitcoincore_ext.rs):
`visit_u64` yields `Timestamp`, `visit_str` accepts exactly "now". -/
def deserializeRescanSince : DeValue → Except DeError RescanSince
  | .num n => .ok (.timestamp n)
  | .str s => if s = "now" then .ok .now else .error (.invalidStr s)

/-- Sample chain code (BIP-32 test vector 1, chain m). -/
def sampleChainCode : List Nat :=
  [0x87, 0x3D, 0xFF, 0x81, 0xC0, 0x2F, 0x52, 0x56, 0x23, 0xFD, 0x1F, 0xE5,
   0x16, 0x7E, 0xAC, 0x3A, 0x55, 0xA0, 0x49, 0xDE, 0x3D, 0x31, 0x4B, 0xB4,
   0x2E, 0xE2, 0x27, 0xFF, 0xED, 0x37, 0xD5, 0x08]

/-- Sample compressed public key (BIP-32 test vector 1, chain m). -/
def samplePublicKey : List Nat :=
  [0x03, 0x39, 0xA3, 0x60, 0x13, 0x30, 0x15, 0x97, 0xDA, 0xEF, 0x41, 0xFB,
   0xE5, 0x93, 0xA0, 0x2C, 0xC5, 0x13, 0xD0, 0xB5, 0x55, 0x27, 0xEC, 0x2D,
   0xF1, 0x05, 0x0E, 0x2E, 0x8F, 0xF4, 0x9C, 0x85, 0xC2]

/-- A concrete mainnet depth-0 extended key built from the sample data. -/
def sampleXpub : ExtendedPubKey :=
  { network := .bitcoin
    depth := 0
    parent_fingerprint := [0, 0, 0, 0]
    child_number := .normal 0
    chain_code := sampleChainCode
    public_key := samplePublicKey }

/-- The decoded payload of the ypub-tagged form of `sampleXpub`: the
Mainnet P2SH-P2WPKH version bytes followed by the key material. -/
def ypubPayload : List Nat :=
  [0x04, 0x9D, 0x7C, 0xB2] ++ (extSerialize sampleXpub).drop 4

/-- A 78-byte payload whose version bytes are not in the table. -/
def badVersionPayload : List Nat :=
  [0, 0, 0, 0] ++ (extSerialize sampleXpub).drop 4

/-- The origin stored in a single-key descriptor's key record, when any. -/
def originOf (d : Descriptor) : Option (List Nat × List ChildNumber) :=
  match keyRecordOf d with
  | some (_, .xPub r) => r.origin
  | _ => none

/-- A stand-in for the external `derive_pub` used when instantiating
`try_from_desc` on concrete inputs: non-hardened derivation from an xpub
succeeds (as the repository's test exercises for the `/0/*` descriptor)
and each step increases the depth; hardened derivation from a public key
fails. The new key material itself is elided, as the eligibility logic
never inspects it. -/
def modelDerive (xpub : ExtendedPubKey) (path : List ChildNumber) : Option ExtendedPubKey :=
  if path.all fun cn => match cn with | .normal _ => true | .hardened _ => false then
    some { xpub with depth := xpub.depth + path.length }
  else none

/-- A wildcard p2wpkh descriptor with the non-empty trailing path `/0/*`,
as in the repository's own test (`wpkh(xpub.../0/*)`). -/
def wildcardPathDesc : Descriptor :=
  .wpkh (.xPub { origin := none
                 xkey := sampleXpub
                 derivation_path := [.normal 0]
                 is_wildcard := true })

/-- A wildcard p2wpkh descriptor with an empty trailing path. -/
def wildcardEmptyDesc : Descriptor :=
  .wpkh (.xPub { origin := none
                 xkey := sampleXpub
                 derivation_path := []
                 is_wildcard := true })

end Bwt

namespace Bwt

lemma parse_xyz_version_not_mem (v : List Nat) (h : v ∉ xyzVersions) :
    parse_xyz_version v = .error (.invalidVersion v) := by
  simp only [xyzVersions, List.mem_cons, List.not_mem_nil, or_false, not_or] at h
  obtain ⟨h1, h2, h3, h4, h5, h6⟩ := h
  simp [parse_xyz_version, h1, h2, h3, h4, h5, h6]

lemma beToNat_u32be (n : Nat) (h : n < 2 ^ 32) : beToNat (u32be n) = n := by
  simp only [u32be, beToNat, List.foldl]
  omega

lemma u32be_beToNat_len (l : List Nat) (hl : l.length = 4) (hb : ∀ b ∈ l, b < 256) :
    u32be (beToNat l) = l := by
  rcases l with _ | ⟨a, _ | ⟨b, _ | ⟨c, _ | ⟨d, _ | ⟨e, t⟩⟩⟩⟩⟩ <;> simp_all
  simp only [beToNat, List.foldl, u32be, List.cons.injEq, and_true]
  obtain ⟨ha, hbb, hc, hd⟩ := hb
  refine ⟨by omega, by omega, by omega, by omega⟩

lemma beToNat_lt_len4 (l : List Nat) (hl : l.length = 4) (hb : ∀ b ∈ l, b < 256) :
    beToNat l < 2 ^ 32 := by
  rcases l with _ | ⟨a, _ | ⟨b, _ | ⟨c, _ | ⟨d, _ | ⟨e, t⟩⟩⟩⟩⟩ <;> simp_all
  simp only [beToNat, List.foldl]
  omega

lemma ChildNumber.code_lt (cn : ChildNumber) (h : cn.index < 2 ^ 31) : cn.code < 2 ^ 32 := by
  cases cn with
  | normal i => simp only [ChildNumber.index] at h; simp only [ChildNumber.code]; omega
  | hardened i => simp only [ChildNumber.index] at h; simp only [ChildNumber.code]; omega

lemma decodeChildNumber_code (cn : ChildNumber) (h : cn.index < 2 ^ 31) :
    decodeChildNumber cn.code = cn := by
  cases cn with
  | normal i =>
    simp only [ChildNumber.index] at h
    simp only [ChildNumber.code, decodeChildNumber]
    rw [if_pos (by omega)]
  | hardened i =>
    simp only [ChildNumber.index] at h
    simp only [ChildNumber.code, decodeChildNumber]
    rw [if_neg (by omega)]
    simp

lemma code_decodeChildNumber (n : Nat) (h : n < 2 ^ 32) : (decodeChildNumber n).code = n := by
  simp only [decodeChildNumber]
  split
  · simp [ChildNumber.code]
  · simp only [ChildNumber.code]
    omega

lemma extParse_eq_fields (data : List Nat) (network : Network) (h78 : data.length = 78)
    (hv : data.take 4 = bip32VersionBytes network) (hn : network ≠ .regtest) :
    extParse data = extParseFields network data := by
  cases network with
  | bitcoin => simp [extParse, h78, hv, bip32VersionBytes]
  | testnet => simp [extParse, h78, hv, bip32VersionBytes]
  | regtest => exact absurd rfl hn

lemma extSerialize_shape (k : ExtendedPubKey) :
    extSerialize k = bip32VersionBytes k.network ++
      k.depth :: (k.parent_fingerprint ++ (u32be k.child_number.code ++
        (k.chain_code ++ k.public_key))) := by
  simp [extSerialize, List.append_assoc]

lemma extSerialize_length (k : ExtendedPubKey) (hfpl : k.parent_fingerprint.length = 4)
    (hccl : k.chain_code.length = 32) (hpkl : k.public_key.length = 33) :
    (extSerialize k).length = 78 := by
  cases hn : k.network <;>
    simp [extSerialize, bip32VersionBytes, hn, hfpl, hccl, hpkl, u32be]

lemma u32be_length (n : Nat) : (u32be n).length = 4 := by
  simp [u32be]

lemma extParse_extSerialize (k : ExtendedPubKey) (hwf : k.WellFormed)
    (hn : k.network ≠ .regtest) :
    extParse (extSerialize k) = .ok k := by
  obtain ⟨hd, hfpl, hfpb, hci, hccl, hccb, hpkl, hpkb, hpkh⟩ := hwf
  have h78 := extSerialize_length k hfpl hccl hpkl
  have hvb : (bip32VersionBytes k.network).length = 4 := by
    cases k.network <;> simp [bip32VersionBytes]
  have htake : (extSerialize k).take 4 = bip32VersionBytes k.network := by
    rw [extSerialize_shape, List.take_left' hvb]
  rw [extParse_eq_fields _ k.network h78 htake hn]
  simp only [extParseFields]
  rw [extSerialize_shape]
  rw [List.drop_left' hvb]
  simp only [List.headD_cons, List.drop_one, List.tail_cons]
  rw [List.take_left' hfpl, List.drop_left' hfpl]
  rw [List.take_left' (u32be_length k.child_number.code),
      List.drop_left' (u32be_length k.child_number.code)]
  rw [List.take_left' hccl, List.drop_left' hccl]
  rw [beToNat_u32be _ (ChildNumber.code_lt _ hci), decodeChildNumber_code _ hci]
  rw [if_pos hpkh]

lemma headD_cons_drop (l : List Nat) (h : l ≠ []) : l.headD 0 :: l.drop 1 = l := by
  cases l with
  | nil => contradiction
  | cons a t => simp

lemma extSerialize_extParse (data : List Nat) (k : ExtendedPubKey)
    (hb : ∀ b ∈ data, b < 256) (h : extParse data = .ok k) :
    extSerialize k = data := by
  unfold extParse at h
  by_cases h78 : data.length = 78
  · rw [if_pos h78] at h
    have hsub2 : ∀ b ∈ (((data.drop 4).drop 1).drop 4).take 4, b < 256 := fun b hbm =>
      hb b (List.drop_subset _ _ (List.drop_subset _ _ (List.drop_subset _ _
        (List.take_subset _ _ hbm))))
    have hlen2 : ((((data.drop 4).drop 1).drop 4).take 4).length = 4 := by
      simp [List.length_take, List.length_drop, h78]
    have hcode : (decodeChildNumber (beToNat ((((data.drop 4).drop 1).drop 4).take 4))).code
        = beToNat ((((data.drop 4).drop 1).drop 4).take 4) :=
      code_decodeChildNumber _ (beToNat_lt_len4 _ hlen2 hsub2)
    have hu32 : u32be (beToNat ((((data.drop 4).drop 1).drop 4).take 4))
        = (((data.drop 4).drop 1).drop 4).take 4 :=
      u32be_beToNat_len _ hlen2 hsub2
    have hrne : data.drop 4 ≠ [] := by
      intro hz
      have := congrArg List.length hz
      simp [h78] at this
    have hrec : data.take 4 ++ data.drop 4 = data := List.take_append_drop 4 data
    split at h
    next heq =>
      simp only [extParseFields] at h
      split at h
      next hpk =>
        rw [Except.ok.injEq] at h
        subst h
        rw [extSerialize_shape]
        simp only
        rw [hcode, hu32]
        rw [List.take_append_drop, List.take_append_drop, List.take_append_drop]
        rw [headD_cons_drop _ hrne]
        rw [show bip32VersionBytes Network.bitcoin = data.take 4 from heq ▸ rfl]
        exact hrec
      next hpk => exact absurd h (by simp)
    next heq =>
      simp only [extParseFields] at h
      split at h
      next hpk =>
        rw [Except.ok.injEq] at h
        subst h
        rw [extSerialize_shape]
        simp only
        rw [hcode, hu32]
        rw [List.take_append_drop, List.take_append_drop, List.take_append_drop]
        rw [headD_cons_drop _ hrne]
        rw [show bip32VersionBytes Network.testnet = data.take 4 from heq ▸ rfl]
        exact hrec
      next hpk => exact absurd h (by simp)
    next v heq => exact absurd h (by simp)
  · rw [if_neg h78] at h
    exact absurd h (by simp)

lemma parse_xyz_version_ok (v : List Nat) (network : Network) (st : ScriptType)
    (h : parse_xyz_version v = .ok (network, st)) : network ≠ .regtest := by
  unfold parse_xyz_version at h
  split_ifs at h <;>
    simp only [Except.ok.injEq, Prod.mk.injEq, reduceCtorEq] at h <;>
    (obtain ⟨rfl, rfl⟩ := h; simp)

lemma from_str_ok (data : List Nat) (k : XyzPubKey) (h : from_str data = .ok k) :
    ∃ network, data.length = 78 ∧
      parse_xyz_version (data.take 4) = .ok (network, k.script_type) ∧
      network ≠ .regtest ∧
      extParse (get_xpub_p2pkh_version network ++ data.drop 4) = .ok k.xpub := by
  unfold from_str at h
  split_ifs at h with h78
  split at h
  next e heq => exact absurd h (by simp)
  next network st heq =>
    split at h
    next e heq2 => exact absurd h (by simp)
    next xpub heq2 =>
      rw [Except.ok.injEq] at h
      subst h
      exact ⟨network, of_not_not (by simpa using h78), heq,
        parse_xyz_version_ok _ _ _ heq, heq2⟩

lemma extParse_network (data : List Nat) (x : ExtendedPubKey) (h : extParse data = .ok x) :
    x.network ≠ .regtest ∧ data.take 4 = bip32VersionBytes x.network := by
  unfold extParse at h
  split_ifs at h
  split at h
  next heq =>
    simp only [extParseFields] at h
    split at h
    next hpk =>
      rw [Except.ok.injEq] at h
      subst h
      exact ⟨by simp, by simpa [bip32VersionBytes] using heq⟩
    next hpk => exact absurd h (by simp)
  next heq =>
    simp only [extParseFields] at h
    split at h
    next hpk =>
      rw [Except.ok.injEq] at h
      subst h
      exact ⟨by simp, by simpa [bip32VersionBytes] using heq⟩
    next hpk => exact absurd h (by simp)
  next v heq => exact absurd h (by simp)

lemma get_xpub_eq_bip32 (network : Network) :
    get_xpub_p2pkh_version network = bip32VersionBytes network := by
  cases network <;> rfl

lemma get_xpub_length (network : Network) : (get_xpub_p2pkh_version network).length = 4 := by
  cases network <;> rfl

lemma get_xpub_bytes (network : Network) : ∀ b ∈ get_xpub_p2pkh_version network, b < 256 := by
  cases network <;> decide

lemma to_string_canonical (data : List Nat) (k : XyzPubKey)
    (hb : ∀ b ∈ data, b < 256) (h : from_str data = .ok k) :
    XyzPubKey.to_string k = get_xpub_p2pkh_version k.xpub.network ++ data.drop 4 := by
  obtain ⟨network, h78, hver, hnr, hext⟩ := from_str_ok data k h
  have hbs : ∀ b ∈ get_xpub_p2pkh_version network ++ data.drop 4, b < 256 := by
    intro b hbm
    rcases List.mem_append.mp hbm with hm | hm
    · exact get_xpub_bytes network b hm
    · exact hb b (List.drop_subset _ _ hm)
  have hser := extSerialize_extParse _ _ hbs hext
  have hnet := extParse_network _ _ hext
  have htake : (get_xpub_p2pkh_version network ++ data.drop 4).take 4
      = get_xpub_p2pkh_version network := List.take_left' (get_xpub_length network)
  have hvv : get_xpub_p2pkh_version network = bip32VersionBytes k.xpub.network := by
    rw [← hnet.2, htake]
  calc XyzPubKey.to_string k = extSerialize k.xpub := rfl
  _ = get_xpub_p2pkh_version network ++ data.drop 4 := hser
  _ = get_xpub_p2pkh_version k.xpub.network ++ data.drop 4 := by
      rw [hvv, ← get_xpub_eq_bip32]

lemma from_str_to_string (k : XyzPubKey) (hwf : k.xpub.WellFormed)
    (hn : k.xpub.network = .bitcoin ∨ k.xpub.network = .testnet) :
    from_str (XyzPubKey.to_string k) = .ok { script_type := .p2pkh, xpub := k.xpub } := by
  have hnr : k.xpub.network ≠ .regtest := by rcases hn with h | h <;> simp [h]
  have h78 : (XyzPubKey.to_string k).length = 78 :=
    extSerialize_length _ hwf.2.1 hwf.2.2.2.2.1 hwf.2.2.2.2.2.2.1
  have hvb : (bip32VersionBytes k.xpub.network).length = 4 := by
    cases k.xpub.network <;> rfl
  have htake : (XyzPubKey.to_string k).take 4 = bip32VersionBytes k.xpub.network := by
    rw [XyzPubKey.to_string, extSerialize_shape, List.take_left' hvb]
  have hrt : extParse (extSerialize k.xpub) = .ok k.xpub := extParse_extSerialize k.xpub hwf hnr
  have hsplice : get_xpub_p2pkh_version k.xpub.network ++ (extSerialize k.xpub).drop 4
      = extSerialize k.xpub := by
    rw [get_xpub_eq_bip32]
    rw [show bip32VersionBytes k.xpub.network = (extSerialize k.xpub).take 4 from htake.symm]
    exact List.take_append_drop 4 (extSerialize k.xpub)
  unfold from_str
  rw [if_neg (by simp [h78])]
  rw [htake]
  rcases hn with h | h <;> rw [h]
  · have hp : parse_xyz_version (bip32VersionBytes Network.bitcoin)
        = .ok (Network.bitcoin, ScriptType.p2pkh) := rfl
    rw [hp]
    have hs2 : get_xpub_p2pkh_version Network.bitcoin ++ (extSerialize k.xpub).drop 4
        = extSerialize k.xpub := h ▸ hsplice
    rw [XyzPubKey.to_string]
    split
    next e heq => exact absurd heq.symm (by simp)
    next network st heq =>
      obtain ⟨rfl, rfl⟩ : Network.bitcoin = network ∧ ScriptType.p2pkh = st := by
        simpa using heq
      rw [hs2, hrt]
  · have hp : parse_xyz_version (bip32VersionBytes Network.testnet)
        = .ok (Network.testnet, ScriptType.p2pkh) := rfl
    rw [hp]
    have hs2 : get_xpub_p2pkh_version Network.testnet ++ (extSerialize k.xpub).drop 4
        = extSerialize k.xpub := h ▸ hsplice
    rw [XyzPubKey.to_string]
    split
    next e heq => exact absurd heq.symm (by simp)
    next network st heq =>
      obtain ⟨rfl, rfl⟩ : Network.testnet = network ∧ ScriptType.p2pkh = st := by
        simpa using heq
      rw [hs2, hrt]

lemma from_str_network_valid (data : List Nat) (k : XyzPubKey) (h : from_str data = .ok k) :
    k.xpub.network = .bitcoin ∨ k.xpub.network = .testnet := by
  obtain ⟨network, h78, hver, hnr, hext⟩ := from_str_ok data k h
  have hx := (extParse_network _ _ hext).1
  cases hy : k.xpub.network <;> simp_all

/-- C4: the version table is a bijection over exactly 6 entries:
lookup of each canonical 4-byte prefix yields the corresponding
(network, script type) pair, the inverse tag lookup returns the original
bytes for each pair, and lookup of any other 4-byte sequence fails with
`InvalidVersion`. -/
theorem version_table_bijection :
    (parse_xyz_version [0x04, 0x88, 0xB2, 0x1E] = .ok (.bitcoin, .p2pkh) ∧
      tagVersionBytes .bitcoin .p2pkh = [0x04, 0x88, 0xB2, 0x1E]) ∧
    (parse_xyz_version [0x04, 0xB2, 0x47, 0x46] = .ok (.bitcoin, .p2wpkh) ∧
      tagVersionBytes .bitcoin .p2wpkh = [0x04, 0xB2, 0x47, 0x46]) ∧
    (parse_xyz_version [0x04, 0x9D, 0x7C, 0xB2] = .ok (.bitcoin, .p2shP2wpkh) ∧
      tagVersionBytes .bitcoin .p2shP2wpkh = [0x04, 0x9D, 0x7C, 0xB2]) ∧
    (parse_xyz_version [0x04, 0x35, 0x87, 0xCF] = .ok (.testnet, .p2pkh) ∧
      tagVersionBytes .testnet .p2pkh = [0x04, 0x35, 0x87, 0xCF]) ∧
    (parse_xyz_version [0x04, 0x5F, 0x1C, 0xF6] = .ok (.testnet, .p2wpkh) ∧
      tagVersionBytes .testnet .p2wpkh = [0x04, 0x5F, 0x1C, 0xF6]) ∧
    (parse_xyz_version [0x04, 0x4A, 0x52, 0x62] = .ok (.testnet, .p2shP2wpkh) ∧
      tagVersionBytes .testnet .p2shP2wpkh = [0x04, 0x4A, 0x52, 0x62]) ∧
    (∀ v : List Nat, v.length = 4 → v ∉ xyzVersions →
      parse_xyz_version v = .error (.invalidVersion v)) := by
  refine ⟨by decide, by decide, by decide, by decide, by decide, by decide, ?_⟩
  intro v _ hv
  exact parse_xyz_version_not_mem v hv

/-- Witness for C4: the all-zero prefix is 4 bytes long, not in the table,
and is rejected. -/
theorem version_table_bijection_witness :
    parse_xyz_version [0, 0, 0, 0] = .error (.invalidVersion [0, 0, 0, 0]) :=
  version_table_bijection.2.2.2.2.2.2 [0, 0, 0, 0] (by decide) (by decide)

/-- C7: the network-compatibility check accepts exactly when the key's
network equals the expected one, or the key is tagged Testnet and Regtest
is expected; Mainnet is never accepted for Regtest, and a Regtest-tagged
key is never accepted for Testnet. -/
theorem xpub_matches_network_iff (xpub : ExtendedPubKey) (network : Network) :
    xpub_matches_network xpub network = true ↔
      (xpub.network = network ∨ (xpub.network = .testnet ∧ network = .regtest)) := by
  cases h : xpub.network <;> cases network <;>
    simp [xpub_matches_network, h]

end Bwt

namespace Bwt

/-- C1 counterexample: the ypub-tagged payload parses successfully, but
serializing the parsed key does not return the original tagged payload
(the serializer emits the canonical xpub family instead). -/
theorem to_string_tagged_counterexample :
    from_str ypubPayload = .ok { script_type := .p2shP2wpkh, xpub := sampleXpub } ∧
    XyzPubKey.to_string { script_type := .p2shP2wpkh, xpub := sampleXpub } ≠ ypubPayload := by
  constructor
  · decide
  · decide

/-- C1 (amended): for every textual key that parses successfully,
serializing the parsed key returns the key with its version prefix
replaced by the canonical P2PKH prefix of its network — equal to the
input exactly when the input already used the canonical prefix, so the
original SLIP-132 tagged family is not preserved. -/
theorem round_trip_canonical_form (data : List Nat) (k : XyzPubKey)
    (hb : ∀ b ∈ data, b < 256) (h : from_str data = .ok k) :
    XyzPubKey.to_string k = get_xpub_p2pkh_version k.xpub.network ++ data.drop 4 ∧
    (XyzPubKey.to_string k = data ↔ data.take 4 = get_xpub_p2pkh_version k.xpub.network) := by
  have hc := to_string_canonical data k hb h
  refine ⟨hc, ?_, ?_⟩
  · intro he
    rw [← he, hc, List.take_left' (get_xpub_length _)]
  · intro ht
    rw [hc, ← ht]
    exact List.take_append_drop 4 data

/-- C1 witness: the amended round-trip theorem applied to the concrete
ypub payload. -/
theorem round_trip_canonical_form_witness :
    (∀ b ∈ ypubPayload, b < 256) ∧
    from_str ypubPayload = .ok { script_type := .p2shP2wpkh, xpub := sampleXpub } ∧
    XyzPubKey.to_string { script_type := .p2shP2wpkh, xpub := sampleXpub }
      = get_xpub_p2pkh_version Network.bitcoin ++ ypubPayload.drop 4 :=
  ⟨by decide, by decide,
   (round_trip_canonical_form ypubPayload { script_type := .p2shP2wpkh, xpub := sampleXpub }
     (by decide) (by decide)).1⟩

/-- C2 counterexample: for a P2WPKH-typed key, decode(encode(k)) yields the
same key material with script type P2PKH, which differs from k. -/
theorem decode_encode_counterexample :
    from_str (XyzPubKey.to_string { script_type := .p2wpkh, xpub := sampleXpub })
      = .ok { script_type := .p2pkh, xpub := sampleXpub } ∧
    ¬ from_str (XyzPubKey.to_string { script_type := .p2wpkh, xpub := sampleXpub })
      = .ok { script_type := .p2wpkh, xpub := sampleXpub } := by
  constructor
  · decide
  · decide

/-- C2 (amended): for every well-formed XyzPubKey, parsing the serialized
form recovers the byte-exact extended-key material, but with script type
P2PKH; the round trip yields a key equal to k exactly when k's script
type is P2PKH. -/
theorem decode_encode_canonical (k : XyzPubKey) (hwf : k.xpub.WellFormed)
    (hn : k.xpub.network = .bitcoin ∨ k.xpub.network = .testnet) :
    from_str (XyzPubKey.to_string k) = .ok { script_type := .p2pkh, xpub := k.xpub } ∧
    (from_str (XyzPubKey.to_string k) = .ok k ↔ k.script_type = .p2pkh) := by
  have h := from_str_to_string k hwf hn
  refine ⟨h, ?_⟩
  obtain ⟨st, x⟩ := k
  simp only at h ⊢
  rw [h]
  simp [eq_comm]

/-- C2 witness: the amended decode-encode theorem applied to a concrete
P2PKH key, for which the round trip is exact. -/
theorem decode_encode_canonical_witness :
    sampleXpub.WellFormed ∧
    from_str (XyzPubKey.to_string { script_type := .p2pkh, xpub := sampleXpub })
      = .ok { script_type := .p2pkh, xpub := sampleXpub } :=
  ⟨by decide,
   (decode_encode_canonical { script_type := .p2pkh, xpub := sampleXpub }
     (by decide) (Or.inl rfl)).1⟩

/-- C3 counterexample: a wildcard p2wpkh descriptor with the non-empty
trailing path `/0/*` does not yield None — the key is derived along the
path instead, exactly as the repository's own test asserts. -/
theorem try_from_desc_nonempty_path_counterexample :
    try_from_desc modelDerive wildcardPathDesc ≠ none := by decide

/-- C3 (amended): try_from_desc returns Some iff the descriptor is a
single-key Pkh/Wpkh/ShWpkh whose key record is an extended key with the
wildcard set and whose trailing path derives successfully; the trailing
path need not be empty, and the returned key is the record's base key
(unmutated) exactly when the trailing path is empty. -/
theorem try_from_desc_eligibility
    (dp : ExtendedPubKey → List ChildNumber → Option ExtendedPubKey)
    (hnil : ∀ x, dp x [] = some x) :
    try_from_desc dp .other = none ∧
    (∀ d st r, keyRecordOf d = some (st, .xPub r) → r.is_wildcard = false →
      try_from_desc dp d = none) ∧
    (∀ d st p, keyRecordOf d = some (st, .singlePub p) → try_from_desc dp d = none) ∧
    (∀ d st r, keyRecordOf d = some (st, .xPub r) → r.is_wildcard = true →
      try_from_desc dp d = (dp r.xkey r.derivation_path).map
        fun xpub => { script_type := st, xpub := xpub }) ∧
    (∀ d st r, keyRecordOf d = some (st, .xPub r) → r.is_wildcard = true →
      r.derivation_path = [] →
      try_from_desc dp d = some { script_type := st, xpub := r.xkey }) := by
  refine ⟨rfl, ?_, ?_, ?_, ?_⟩
  · intro d st r hk hw
    cases d <;>
      simp only [keyRecordOf, Option.some.injEq, Prod.mk.injEq, reduceCtorEq] at hk <;>
      (obtain ⟨rfl, rfl⟩ := hk; simp [try_from_desc, tryKeyRecord, hw])
  · intro d st p hk
    cases d <;>
      simp only [keyRecordOf, Option.some.injEq, Prod.mk.injEq, reduceCtorEq] at hk <;>
      (obtain ⟨rfl, rfl⟩ := hk; simp [try_from_desc, tryKeyRecord])
  · intro d st r hk hw
    cases d <;>
      simp only [keyRecordOf, Option.some.injEq, Prod.mk.injEq, reduceCtorEq] at hk <;>
      (obtain ⟨rfl, rfl⟩ := hk; simp [try_from_desc, tryKeyRecord, hw])
  · intro d st r hk hw hp
    cases d <;>
      simp only [keyRecordOf, Option.some.injEq, Prod.mk.injEq, reduceCtorEq] at hk <;>
      (obtain ⟨rfl, rfl⟩ := hk; simp [try_from_desc, tryKeyRecord, hw, hp, hnil])

/-- C3 witness: the eligibility theorem applied to a concrete wildcard
empty-path p2wpkh descriptor, which converts to its base key. -/
theorem try_from_desc_eligibility_witness :
    try_from_desc modelDerive wildcardEmptyDesc
      = some { script_type := .p2wpkh, xpub := sampleXpub } :=
  (try_from_desc_eligibility modelDerive (fun x => by simp [modelDerive])).2.2.2.2
    wildcardEmptyDesc .p2wpkh _ rfl rfl rfl

/-- C5: the descriptor built from an XyzPubKey always has the wildcard
set, trailing path equal to the requested suffix, the base key unmutated,
an origin exactly when the key's depth > 0 (the single hop parent
fingerprint / own child number), and the variant determined by the
script type (P2PKH to Pkh, P2WPKH to Wpkh, P2SH-P2WPKH to ShWpkh). -/
theorem as_descriptor_fields (k : XyzPubKey) (p : List ChildNumber) :
    keyRecordOf (k.as_descriptor p) =
      some (k.script_type,
        .xPub { origin := if k.xpub.depth > 0 then
                  some (k.xpub.parent_fingerprint, [k.xpub.child_number])
                else none
                xkey := k.xpub
                derivation_path := p
                is_wildcard := true }) ∧
    ((originOf (k.as_descriptor p)).isSome ↔ k.xpub.depth > 0) := by
  obtain ⟨st, x⟩ := k
  constructor
  · cases st <;> simp [XyzPubKey.as_descriptor, keyRecordOf]
  · cases st <;>
      simp only [XyzPubKey.as_descriptor, keyRecordOf, originOf] <;>
      split <;> simp_all

/-- C6: parsing a payload that is not exactly 78 bytes fails with
InvalidLength carrying the actual length, and parsing a 78-byte payload
whose first 4 bytes are not in the table fails with InvalidVersion
carrying those bytes; no key is produced in either case. -/
theorem from_str_error_cases :
    (∀ data : List Nat, data.length ≠ 78 →
      from_str data = .error (.invalidLength data.length)) ∧
    (∀ data : List Nat, data.length = 78 → data.take 4 ∉ xyzVersions →
      from_str data = .error (.invalidVersion (data.take 4))) := by
  constructor
  · intro data h
    unfold from_str
    rw [if_pos h]
  · intro data h78 hv
    unfold from_str
    rw [if_neg (by simp [h78])]
    rw [parse_xyz_version_not_mem _ hv]

/-- C6 witness: a 77-byte payload is rejected with InvalidLength 77, and
a 78-byte payload with the all-zero prefix is rejected with
InvalidVersion. -/
theorem from_str_error_cases_witness :
    from_str (List.replicate 77 0) = .error (.invalidLength 77) ∧
    from_str badVersionPayload = .error (.invalidVersion [0, 0, 0, 0]) := by
  constructor
  · have h := from_str_error_cases.1 (List.replicate 77 0) (by decide)
    simpa using h
  · have h := from_str_error_cases.2 badVersionPayload (by decide) (by decide)
    simpa using h

/-- C8: the single-hop origin computed from an extended key is
(parent fingerprint, [child number]) when the depth is positive, and
(the key's own fingerprint, empty path) when the depth is zero. -/
theorem bip32_origin_from_key (f : ExtendedPubKey → List Nat) (xpub : ExtendedPubKey) :
    (xpub.depth > 0 → Bip32Origin.from_xpub f xpub =
      { fingerprint := xpub.parent_fingerprint, path := [xpub.child_number] }) ∧
    (xpub.depth = 0 → Bip32Origin.from_xpub f xpub =
      { fingerprint := f xpub, path := [] }) := by
  constructor
  · intro h
    simp [Bip32Origin.from_xpub, h]
  · intro h
    simp [Bip32Origin.from_xpub, h]

/-- C8 witness: both branches of the origin computation at concrete keys
of depth 0 and depth 1. -/
theorem bip32_origin_from_key_witness :
    (sampleXpub.depth = 0 ∧
      Bip32Origin.from_xpub (fun _ => [9, 9, 9, 9]) sampleXpub
        = { fingerprint := [9, 9, 9, 9], path := [] }) ∧
    ({ sampleXpub with depth := 1 }.depth > 0 ∧
      Bip32Origin.from_xpub (fun _ => [9, 9, 9, 9]) { sampleXpub with depth := 1 }
        = { fingerprint := [0, 0, 0, 0], path := [ChildNumber.normal 0] }) :=
  ⟨⟨rfl, (bip32_origin_from_key (fun _ => [9, 9, 9, 9]) sampleXpub).2 rfl⟩,
   ⟨by decide, (bip32_origin_from_key (fun _ => [9, 9, 9, 9])
     { sampleXpub with depth := 1 }).1 (by decide)⟩⟩

/-- C9: rescan-start-point deserialization accepts exactly an unsigned
integer (yielding Timestamp) and the literal string "now" (yielding Now);
every other string is rejected with an error naming the string. -/
theorem rescan_since_deserialize :
    (∀ n, deserializeRescanSince (.num n) = .ok (.timestamp n)) ∧
    deserializeRescanSince (.str "now") = .ok .now ∧
    (∀ s, s ≠ "now" → deserializeRescanSince (.str s) = .error (.invalidStr s)) := by
  refine ⟨fun n => rfl, rfl, fun s h => ?_⟩
  simp [deserializeRescanSince, h]

/-- C9 witness: the rejection branch at the concrete string "later". -/
theorem rescan_since_deserialize_witness :
    deserializeRescanSince (.str "later") = .error (.invalidStr "later") :=
  rescan_since_deserialize.2.2 "later" (by decide)

/-- C10: every successfully parsed XyzPubKey carries a network tag of
Mainnet or Testnet, never Regtest. -/
theorem parsed_network_never_regtest (data : List Nat) (k : XyzPubKey)
    (h : from_str data = .ok k) :
    k.xpub.network ≠ .regtest ∧
    (k.xpub.network = .bitcoin ∨ k.xpub.network = .testnet) := by
  have h2 := from_str_network_valid data k h
  refine ⟨?_, h2⟩
  rcases h2 with h3 | h3 <;> simp [h3]

/-- C10 witness: the network invariant at the concrete ypub payload. -/
theorem parsed_network_never_regtest_witness :
    from_str ypubPayload = .ok { script_type := .p2shP2wpkh, xpub := sampleXpub } ∧
    ({ script_type := .p2shP2wpkh, xpub := sampleXpub } : XyzPubKey).xpub.network
      ≠ .regtest :=
  ⟨by decide,
   (parsed_network_never_regtest ypubPayload
     { script_type := .p2shP2wpkh, xpub := sampleXpub } (by decide)).1⟩

end Bwt
